import Mathlib

set_option maxRecDepth 16000

/-!
Verification development for the SVN metadata extraction and module
generation core of unplugin-info.

The definitions below are a shallow embedding of the TypeScript sources:
  - src/unnamed/part_000          (current revision of the svn utils)
  - src/src/core/utils/svn.ts     (older revision; embedded where it differs)
  - src/src/core/modules/svn.ts   (the module generator)

Subprocess executions are modelled by an explicit world: each of the four
commands the code may run (svn --version, svn info, svn log -l 1 --xml,
svn log -l 10 --xml) has its outcome recorded in the world as an exit
status together with captured stdout and stderr. JavaScript strings are
Lean strings; undefined-or-string values are Option String; the merged
metadata object is an ordered list of key-value pairs with
last-binding-wins lookup, mirroring object spread semantics.
-/

/-- Outcome of one subprocess execution: ok is true exactly when the exit
code is zero (execAsync resolves); stdout and stderr are the captured
streams. -/
structure ExecResult where
  ok : Bool
  stdout : String
  stderr : String
deriving DecidableEq, Repr

/-- The external world seen by one collect call: the result of the
memoized svn --version probe, whether root/.svn exists, and the results
of the svn info, svn log -l 1 --xml and svn log -l 10 --xml commands. -/
structure World where
  versionResult : ExecResult
  hasDotSvn : Bool
  infoResult : ExecResult
  log1Result : ExecResult
  log10Result : ExecResult
deriving DecidableEq, Repr

/-- A value stored in the merged metadata object: undefined, a string, or
an array of strings (the tags field). -/
inductive Value where
  | vUndef : Value
  | vStr : String → Value
  | vArr : List String → Value
deriving DecidableEq, Repr

/-- One parsed logentry element, as in the SvnLogEntry interface. -/
structure SvnLogEntry where
  revision : String
  author : String
  date : String
  msg : String
deriving DecidableEq, Repr

/-- Removes leading and trailing whitespace from a character list. -/
def trimChars (s : List Char) : List Char :=
  ((s.dropWhile Char.isWhitespace).reverse.dropWhile Char.isWhitespace).reverse

/-- Embeds the JavaScript s.trim() call. -/
def jsTrim (s : String) : String := String.mk (trimChars s.data)

/-- Splits a character list on every occurrence of the separator
character, embedding the JavaScript single-character split. -/
def splitOnChar (sep : Char) : List Char → List (List Char)
  | [] => [[]]
  | c :: rest =>
    let r := splitOnChar sep rest
    if c = sep then [] :: r
    else
      match r with
      | h :: t => (c :: h) :: t
      | [] => [[c]]

/-- Embeds the JavaScript s.endsWith(pat) test. -/
def strEndsWith (s pat : String) : Bool := pat.data.isSuffixOf s.data

/-- Embeds the JavaScript s.startsWith(pat) test. -/
def strStartsWith (s pat : String) : Bool := pat.data.isPrefixOf s.data

/-- Joins a list of strings with the given separator, embedding the
JavaScript array join. -/
def joinWith (sep : String) : List String → String
  | [] => ""
  | [s] => s
  | s :: rest => s ++ sep ++ joinWith sep rest

/-- Concatenation of a list of strings. -/
def concatAll : List String → String
  | [] => ""
  | s :: rest => s ++ concatAll rest

/-- Substring test on character lists, used to embed String.includes. -/
def containsSub (pat : List Char) : List Char → Bool
  | [] => pat.isPrefixOf []
  | s@(_ :: rest) => pat.isPrefixOf s || containsSub pat rest

/-- Embeds the JavaScript s.includes(pat) test. -/
def strIncludes (s pat : String) : Bool := containsSub pat.data s.data

/-- Splits a character list at its first colon: returns the characters
before the first colon and the characters after it, or none when the
list has no colon. -/
def splitAtFirstColon : List Char → Option (List Char × List Char)
  | [] => none
  | c :: rest =>
    if c = ':' then some ([], rest)
    else (splitAtFirstColon rest).map (fun p => (c :: p.1, p.2))

/-- Word character test of the regex class used by toCamelCase. -/
def isWordChar (c : Char) : Bool := c.isAlphanum || c == '_'

/-- Character-by-character pass of the toCamelCase replace: a character
matches the pattern when it is a word character at index zero, an
uppercase letter, or a word character at a word boundary; a matched
character at index zero is lowercased and any other matched character is
uppercased. -/
def camelMap : Nat → Bool → List Char → List Char
  | _, _, [] => []
  | i, prevWord, c :: rest =>
    let matched := isWordChar c && (i == 0 || c.isUpper || !prevWord)
    let c2 := if matched then (if i == 0 then c.toLower else c.toUpper) else c
    c2 :: camelMap (i + 1) (isWordChar c) rest

/-- Embeds toCamelCase from the svn utils: apply the case-mapping replace
and then delete all whitespace. -/
def toCamelCase (s : String) : String :=
  String.mk ((camelMap 0 false s.data).filter (fun c => !c.isWhitespace))

/-- Line terminator test: the characters the dot of a JavaScript regex
refuses to match and the dollar anchor cares about. -/
def lineTerm (c : Char) : Bool := c == '\r' || c == '\n'

/-- The end-anchored whitespace-then-capture tail of the basic-info line
regex, applied to the remainder after the first colon. The star-greedy
whitespace run and the end-anchored dot-plus capture succeed in exactly
two cases: the remainder has a non-empty part after its leading
whitespace and that part is free of line terminators (the capture is
that part); or the remainder is all whitespace and its last character
is not a line terminator, in which case backtracking leaves exactly
that last character as the capture. In particular a remainder carrying
a carriage return after its leading whitespace never matches. -/
def matchAfterColon (r : List Char) : Option (List Char) :=
  if r.dropWhile Char.isWhitespace = [] then
    match r.reverse with
    | [] => none
    | c :: _ => if lineTerm c then none else some [c]
  else if (r.dropWhile Char.isWhitespace).any lineTerm then none
  else some (r.dropWhile Char.isWhitespace)

/-- Embeds the per-line regex of getSvnBasicInfo, scanned without the
multiline flag: the key is at least one character before the first
colon, and the remainder after the colon must satisfy the end-anchored
whitespace-then-capture tail; a line whose remainder holds a line
terminator, such as the trailing carriage return of CRLF output,
contributes no entry. The key is trimmed and camel-cased and the
captured value trimmed. -/
def parseInfoLine (line : String) : Option (String × String) :=
  match splitAtFirstColon line.data with
  | none => none
  | some (kD, restD) =>
    if kD = [] then none
    else
      match matchAfterColon restD with
      | none => none
      | some cap => some (toCamelCase (String.mk (trimChars kD)), String.mk (trimChars cap))

/-- Builds the info mapping of getSvnBasicInfo: one pass over the lines
of the output, recording each matched key-value pair in order. -/
def svnInfoMap (output : String) : List (String × String) :=
  ((splitOnChar '\n' output.data).map String.mk).foldl (fun m line =>
    match parseInfoLine line with
    | some kv => m ++ [kv]
    | none => m) []

/-- Object-property lookup with assignment semantics: the last binding of
a key wins; an unbound key reads as undefined (none). -/
def lookupLast (m : List (String × String)) (k : String) : Option String :=
  m.foldl (fun acc p => if p.1 = k then some p.2 else acc) none

/-- Embeds the JavaScript a or-else b on possibly-undefined strings: the
empty string is falsy, so it falls through to the right operand. -/
def jsOr (a b : Option String) : Option String :=
  match a with
  | some s => if s = "" then b else some s
  | none => b

/-- Lifts an optional string into a metadata value. -/
def toValue : Option String → Value
  | none => Value.vUndef
  | some s => Value.vStr s

/-- Scans a tag body (the characters of a logentry open tag before its
closing angle bracket) for the leftmost occurrence of the attribute text
revision=" followed by at least one digit and a closing double quote,
returning the captured digit run. -/
def findRevision : List Char → Option String
  | [] => none
  | s@(_ :: rest) =>
    if ("revision=\"".data).isPrefixOf s then
      let after := s.drop ("revision=\"".data).length
      let ds := after.takeWhile Char.isDigit
      if ds.isEmpty then findRevision rest
      else
        match after.drop ds.length with
        | '\"' :: _ => some (String.mk ds)
        | _ => findRevision rest
    else findRevision rest

/-- Finds the leftmost logentry open tag carrying a revision attribute:
the literal text of an opening logentry tag, a revision attribute among
the characters before the closing angle bracket, and that closing
bracket; returns the captured revision and the characters after the
bracket. -/
def findLogentryOpen : List Char → Option (String × List Char)
  | [] => none
  | s@(_ :: rest) =>
    if ("<logentry".data).isPrefixOf s then
      let after := s.drop 9
      let t := after.takeWhile (fun c => c != '>')
      if t.length < after.length then
        match findRevision t with
        | some rev => some (rev, after.drop (t.length + 1))
        | none => findLogentryOpen rest
      else findLogentryOpen rest
    else findLogentryOpen rest

/-- Finds the leftmost element of the given name whose body is a run of
characters other than an opening angle bracket immediately followed by
the matching close tag, mirroring the lazy-gap-then-element pieces of
the log regexes; when allowEmpty is false the body must be non-empty.
Returns the body and the characters after the close tag. -/
def findBlock (openTag closeTag : List Char) (allowEmpty : Bool) : List Char → Option (String × List Char)
  | [] => none
  | s@(_ :: rest) =>
    if openTag.isPrefixOf s then
      let after := s.drop openTag.length
      let content := after.takeWhile (fun c => c != '<')
      if content.isEmpty && !allowEmpty then findBlock openTag closeTag allowEmpty rest
      else if closeTag.isPrefixOf (after.drop content.length) then
        some (String.mk content, (after.drop content.length).drop closeTag.length)
      else findBlock openTag closeTag allowEmpty rest
    else findBlock openTag closeTag allowEmpty rest

/-- Finds the leftmost occurrence of the given literal and returns the
characters after it. -/
def findClose (pat : List Char) : List Char → Option (List Char)
  | [] => none
  | s@(_ :: rest) =>
    if pat.isPrefixOf s then some (s.drop pat.length) else findClose pat rest

/-- One iteration of the global multi-entry log regex: a logentry open
tag with revision, then in order an author element with non-empty body,
a date element with non-empty body, a msg element with possibly empty
body, and a closing logentry tag, each reached across a lazy gap.
Returns the entry and the characters after the match. -/
def matchOneEntry (s : List Char) : Option (SvnLogEntry × List Char) :=
  match findLogentryOpen s with
  | none => none
  | some (rev, r1) =>
    match findBlock "<author>".data "</author>".data false r1 with
    | none => none
    | some (au, r2) =>
      match findBlock "<date>".data "</date>".data false r2 with
      | none => none
      | some (da, r3) =>
        match findBlock "<msg>".data "</msg>".data true r3 with
        | none => none
        | some (ms, r4) =>
          match findClose "</logentry>".data r4 with
          | none => none
          | some r5 => some (⟨rev, au, da, ms⟩, r5)

/-- Repeats matchOneEntry to collect every match of the global regex in
order; the fuel bounds the number of iterations and is set to the input
length, which every non-empty match strictly decreases. -/
def parseEntriesAux : Nat → List Char → List SvnLogEntry
  | 0, _ => []
  | fuel + 1, s =>
    match matchOneEntry s with
    | none => []
    | some (e, rest) => e :: parseEntriesAux fuel rest

/-- Embeds parseSvnXmlLogs: every match of the multi-entry log regex, in
document order. -/
def parseSvnXmlLogs (xml : String) : List SvnLogEntry :=
  parseEntriesAux xml.length xml.data

/-- Embeds parseSvnXmlLog: the four single-entry regexes are each matched
independently against the whole payload; a missing author, date or msg
element defaults to the empty string, and the result is none exactly
when no logentry open tag with a revision attribute exists. -/
def parseSvnXmlLog (xml : String) : Option SvnLogEntry :=
  match findLogentryOpen xml.data with
  | none => none
  | some (rev, _) =>
    let au := match findBlock "<author>".data "</author>".data false xml.data with
      | some p => p.1
      | none => ""
    let da := match findBlock "<date>".data "</date>".data false xml.data with
      | some p => p.1
      | none => ""
    let ms := match findBlock "<msg>".data "</msg>".data true xml.data with
      | some p => p.1
      | none => ""
    some ⟨rev, au, da, ms⟩

/-- Embeds execSync of src/unnamed/part_000: on a thrown error or
non-zero exit the command yields the empty string; on exit code zero it
yields the empty string when stderr has non-blank content and the
trimmed stdout otherwise. -/
def execSync (r : ExecResult) : String :=
  if r.ok then
    if jsTrim r.stderr != "" then "" else jsTrim r.stdout
  else ""

namespace Core

/-- Embeds execSync of src/src/core/utils/svn.ts: on exit code zero it
yields the trimmed stdout regardless of stderr; on a thrown error or
non-zero exit it yields the empty string. -/
def execSync (r : ExecResult) : String :=
  if r.ok then jsTrim r.stdout else ""

end Core

/-- Embeds checkSvnAvailable: true exactly when the version command
exits zero and its stdout contains the text svn. -/
def checkSvnAvailable (w : World) : Bool :=
  if w.versionResult.ok then strIncludes w.versionResult.stdout "svn" else false

/-- Embeds isSvnRepo together with the subprocess commands it issues:
when the reserved .svn directory exists the check succeeds with no
subprocess call; otherwise it runs svn info and succeeds exactly when
the command yields non-empty output. -/
def isSvnRepo (w : World) : Bool × List String :=
  if w.hasDotSvn then (true, [])
  else (execSync w.infoResult != "", ["svn info"])

/-- Scans for the leftmost occurrence of the given label followed by at
least one whitespace character, consumes the maximal whitespace run, and
captures the remaining characters of that line, embedding the
label-colon regexes of getBranchOrTag. -/
def matchCapture (pat : List Char) : List Char → Option (List Char)
  | [] => none
  | s@(_ :: rest) =>
    if pat.isPrefixOf s then
      let after := s.drop pat.length
      let ws := after.takeWhile Char.isWhitespace
      if ws.isEmpty then matchCapture pat rest
      else some ((after.drop ws.length).takeWhile (fun c => c != '\n'))
    else matchCapture pat rest

/-- Captures the first path segment after the leftmost occurrence of the
given marker that is followed by at least one character other than a
slash, embedding the branches and tags capture regexes. -/
def captureAfterSeg (marker : List Char) : List Char → Option String
  | [] => none
  | s@(_ :: rest) =>
    if marker.isPrefixOf s then
      let after := s.drop marker.length
      let seg := after.takeWhile (fun c => c != '/')
      if seg.isEmpty then captureAfterSeg marker rest else some (String.mk seg)
    else captureAfterSeg marker rest

/-- Embeds getBranchOrTag of src/unnamed/part_000: extract the working
URL from the info output; a URL containing /trunk/ or ending in /trunk
gives trunk; a URL containing /branches/ gives the captured branch name
or the unknown-branch fallback; a URL containing /tags/ gives the
captured tag name or the unknown-tag fallback; otherwise the last path
segment of the Working Copy Root Path line is used unless it is empty,
equals trunk, or starts with tags; and when nothing applies the literal
unknown is returned. -/
def getBranchOrTag (w : World) : Option String :=
  let infoOutput := execSync w.infoResult
  let url :=
    match matchCapture "URL:".data infoOutput.data with
    | some c => String.mk (trimChars c)
    | none => ""
  if strIncludes url "/trunk/" || strEndsWith url "/trunk" then some "trunk"
  else if strIncludes url "/branches/" then
    some ((captureAfterSeg "/branches/".data url.data).getD "unknown-branch")
  else if strIncludes url "/tags/" then
    some ((captureAfterSeg "/tags/".data url.data).getD "unknown-tag")
  else
    match matchCapture "Working Copy Root Path:".data infoOutput.data with
    | some rp =>
      let parts := splitOnChar '/' rp
      let lastPart := String.mk (parts.getLastD [])
      if lastPart != "" && lastPart != "trunk" && !(strStartsWith lastPart "tags") then
        some lastPart
      else some "unknown"
    | none => some "unknown"

/-- Embeds getSvnBasicInfo of src/unnamed/part_000: run svn info; on
empty output return every field undefined; otherwise parse the lines
into the info mapping and read each field through its chain of key
variants with falsy fallback. -/
def getSvnBasicInfo (w : World) : List (String × Value) :=
  let output := execSync w.infoResult
  if output = "" then
    [("url", Value.vUndef), ("repositoryRoot", Value.vUndef),
     ("repositoryUuid", Value.vUndef), ("revision", Value.vUndef),
     ("nodeKind", Value.vUndef), ("lastChangedRev", Value.vUndef),
     ("lastChangedDate", Value.vUndef), ("lastChangedAuthor", Value.vUndef)]
  else
    let info := svnInfoMap output
    let g := lookupLast info
    [("url", toValue (jsOr (g "url") (g "URL"))),
     ("repositoryRoot",
       toValue (jsOr (jsOr (g "repositoryRoot") (g "repository root")) (g "Repository Root"))),
     ("repositoryUuid",
       toValue (jsOr (jsOr (g "repositoryUuid") (g "repository uuid")) (g "Repository UUID"))),
     ("revision", toValue (jsOr (jsOr (g "revision") (g "Revision")) (g "revision"))),
     ("nodeKind", toValue (jsOr (jsOr (g "nodeKind") (g "node kind")) (g "Node Kind"))),
     ("lastChangedRev",
       toValue (jsOr (jsOr (jsOr (jsOr (g "lastChangedRev") (g "last changed rev"))
         (g "Last Changed Rev")) (g "lastChangedRevision")) (g "last changed revision"))),
     ("lastChangedDate",
       toValue (jsOr (jsOr (g "lastChangedDate") (g "last changed date")) (g "Last Changed Date"))),
     ("lastChangedAuthor",
       toValue (jsOr (jsOr (g "lastChangedAuthor") (g "last changed author")) (g "Last Changed Author")))]

/-- Embeds getLastCommit: parse the single-entry log; when an entry is
found map its revision to both sha and abbreviatedSha and its msg,
author and date to the commit fields, with authorEmail always
undefined; when no entry is found every field is undefined. -/
def getLastCommit (w : World) : List (String × Value) :=
  let output := execSync w.log1Result
  match parseSvnXmlLog output with
  | some e =>
    [("sha", Value.vStr e.revision), ("abbreviatedSha", Value.vStr e.revision),
     ("commitMessage", Value.vStr e.msg), ("author", Value.vStr e.author),
     ("authorDate", Value.vStr e.date), ("authorEmail", Value.vUndef)]
  | none =>
    [("sha", Value.vUndef), ("abbreviatedSha", Value.vUndef),
     ("commitMessage", Value.vUndef), ("author", Value.vUndef),
     ("authorDate", Value.vUndef), ("authorEmail", Value.vUndef)]

/-- Embeds getCommitLog: parse the ten-entry log, infer the branch or
tag, and produce branch, tag, tags, lastTag and describe; the inferred
name falls through to undefined when falsy, tags is the list of parsed
revisions in document order, and describe is the letter r followed by
the most recent revision or nothing. -/
def getCommitLog (w : World) : List (String × Value) :=
  let output := execSync w.log10Result
  let logs := parseSvnXmlLogs output
  let lastTag := getBranchOrTag w
  let bt : Value :=
    match lastTag with
    | some s => if s = "" then Value.vUndef else Value.vStr s
    | none => Value.vUndef
  [("branch", bt), ("tag", bt),
   ("tags", Value.vArr (logs.map SvnLogEntry.revision)),
   ("lastTag", bt),
   ("describe",
     Value.vStr ("r" ++ (match logs.head? with | some e => e.revision | none => "")))]

/-- Evaluates the user extractor map exactly as the inner Promise.all
does: every entry is invoked, and the join rejects as soon as any entry
rejects, otherwise yielding the key-value pairs in map order. -/
def evalExtras : List (String × Except Unit Value) → Except Unit (List (String × Value))
  | [] => Except.ok []
  | (_, Except.error e) :: _ => Except.error e
  | (k, Except.ok v) :: rest => (evalExtras rest).map (fun ps => (k, v) :: ps)

/-- The object-spread merge of the four partial results, in the order
basic info, last commit, log and branch, extractor pairs; later bindings
of a key shadow earlier ones under object lookup. -/
def collectRecord (w : World) (pairs : List (String × Value)) : List (String × Value) :=
  getSvnBasicInfo w ++ getLastCommit w ++ getCommitLog w ++ pairs

/-- The subprocess commands issued by the four concurrent collection
tasks once the repository check has passed. -/
def taskCalls : List String :=
  ["svn info", "svn log -l 1 --xml", "svn log -l 10 --xml", "svn info"]

/-- Result of one collect call: the merged record or its absence, the
console warnings emitted, and the subprocess commands issued inside the
call (the memoized version probe is outside the call). -/
structure CollectOut where
  info : Option (List (String × Value))
  warns : List String
  calls : List String
deriving DecidableEq, Repr

/-- Embeds getSvnInfo: when the memoized availability probe is negative,
warn and return absent with no subprocess call; when the repository
check fails, return absent; otherwise run the four tasks, and when any
extractor rejects the joined promise rejects and the surrounding catch
turns the whole collect into absent; when all extractors resolve the
merged record is returned. -/
def getSvnInfo (w : World) (extra : List (String × Except Unit Value)) : CollectOut :=
  if checkSvnAvailable w then
    let repo := isSvnRepo w
    if repo.1 then
      match evalExtras extra with
      | Except.ok pairs => ⟨some (collectRecord w pairs), [], repo.2 ++ taskCalls⟩
      | Except.error _ => ⟨none, [], repo.2 ++ taskCalls⟩
    else ⟨none, [], repo.2⟩
  else ⟨none, ["SVN is not installed or not in PATH. SVN info will not be available."], []⟩

/-- The nineteen fixed export keys of BuildSvnModule.load, in their
declared order. -/
def fixedKeys : List String :=
  ["url", "repositoryRoot", "repositoryUuid", "revision", "nodeKind",
   "lastChangedRev", "lastChangedDate", "lastChangedAuthor", "sha",
   "abbreviatedSha", "commitMessage", "author", "authorDate", "authorEmail",
   "branch", "tag", "tags", "lastTag", "describe"]

/-- First-occurrence deduplication with an accumulator of already seen
keys, embedding the iteration order of a JavaScript Set. -/
def dedupFirstAux (seen : List String) : List String → List String
  | [] => []
  | a :: rest =>
    if a ∈ seen then dedupFirstAux seen rest
    else a :: dedupFirstAux (a :: seen) rest

/-- Embeds the spread of a Set literal: the listed elements with every
repeated occurrence after the first removed. -/
def dedupFirst (l : List String) : List String := dedupFirstAux [] l

/-- Embeds the key list of BuildSvnModule.load: the fixed keys followed
by the extractor map keys, deduplicated keeping first occurrences. -/
def keyList (extraKeys : List String) : List String :=
  dedupFirst (fixedKeys ++ extraKeys)

/-- JSON escape for one character inside a string literal, as
JSON.stringify performs it. -/
def jsonEscapeChar (c : Char) : String :=
  if c = '\"' then "\\\""
  else if c = '\\' then "\\\\"
  else if c = '\n' then "\\n"
  else if c = '\r' then "\\r"
  else if c = '\t' then "\\t"
  else if c.val = 8 then "\\b"
  else if c.val = 12 then "\\f"
  else if c.val < 32 then
    let hex := fun (n : Nat) => String.mk [(Nat.digitChar (n / 16)), (Nat.digitChar (n % 16))]
    "\\u00" ++ hex c.val.toNat
  else String.mk [c]

/-- JSON encoding of a string value. -/
def jsonEncodeString (s : String) : String :=
  "\"" ++ concatAll (s.data.map jsonEscapeChar) ++ "\""

/-- The text a metadata value contributes inside the generated template
literal: JSON.stringify of a string or array, and the token undefined
for an undefined value, since JSON.stringify returns undefined there and
template interpolation renders that value as the word undefined. -/
def stringifyTemplate : Value → String
  | Value.vUndef => "undefined"
  | Value.vStr s => jsonEncodeString s
  | Value.vArr l => "[" ++ joinWith "," (l.map jsonEncodeString) ++ "]"

/-- One merge-then-lookup step: a pair whose key matches replaces the
accumulated value. -/
def setIf (k : String) (acc : Value) (p : String × Value) : Value :=
  if p.1 = k then p.2 else acc

/-- Property read on the merged object: the last binding of the key
wins, and a key never bound reads as undefined. -/
def objGet (m : List (String × Value)) (k : String) : Value :=
  m.foldl (setIf k) Value.vUndef

/-- Embeds the gen closure of BuildSvnModule.load: one export constant
assignment per key; when no record was obtained the value text is the
null literal, otherwise it is the template rendering of the property
read. -/
def gen (info : Option (List (String × Value))) (key : String) : String :=
  "export const " ++ key ++ " = " ++
    (match info with
     | none => "null"
     | some rec => stringifyTemplate (objGet rec key))

/-- Result of one load call: the warnings sent to the host context and
the generated source text. -/
structure BuildOut where
  warnings : List String
  text : String
deriving DecidableEq, Repr

/-- Embeds BuildSvnModule.load: collect the record, warn the host once
when it is absent, and join the per-key lines with newlines in key-list
order. -/
def load (w : World) (extra : List (String × Except Unit Value)) : BuildOut :=
  let out := getSvnInfo w extra
  let warnings :=
    match out.info with
    | none => ["This may not be a svn repo"]
    | some _ => []
  let keys := keyList (extra.map Prod.fst)
  ⟨warnings, joinWith "\n" (keys.map (gen out.info))⟩

/-- Shorthand for a zero-exit subprocess result with the given stdout
and empty stderr. -/
def okExec (s : String) : ExecResult := ⟨true, s, ""⟩

/-- A representative successful svn info output. -/
def infoTextOk : String :=
  "Path: .\nWorking Copy Root Path: /home/u/proj\nURL: https://host/repo/trunk\nRepository Root: https://host/repo\nRepository UUID: abc-123\nRevision: 5\nNode Kind: directory\nLast Changed Author: alice\nLast Changed Rev: 5\nLast Changed Date: 2024-01-03"

/-- A single-entry xml log payload. -/
def xmlOne : String :=
  "<log><logentry revision=\"5\"><author>alice</author><date>2024-01-03</date><msg>third</msg></logentry></log>"

/-- A three-entry xml log payload with revisions 7, 6 and 5 in document
order, every optional element present. -/
def xmlThree : String :=
  "<log><logentry revision=\"7\"><author>alice</author><date>2024-01-03</date><msg>third</msg></logentry><logentry revision=\"6\"><author>bob</author><date>2024-01-02</date><msg>second</msg></logentry><logentry revision=\"5\"><author>carol</author><date>2024-01-01</date><msg>first</msg></logentry></log>"

/-- A two-entry xml log payload whose first entry has no author
element. -/
def xmlMissingAuthor : String :=
  "<log><logentry revision=\"7\"><date>2024-01-03</date><msg>third</msg></logentry><logentry revision=\"6\"><author>bob</author><date>2024-01-02</date><msg>second</msg></logentry></log>"

/-- A single-entry xml log payload with no author element. -/
def xmlNoAuthorOne : String :=
  "<logentry revision=\"9\"><date>D</date><msg>M</msg></logentry>"

/-- A world in which the tool is available, the directory is a working
copy, and all three queries succeed. -/
def wOk : World :=
  ⟨okExec "svn, version 1.14.2", true, okExec infoTextOk, okExec xmlOne, okExec xmlThree⟩

/-- A world in which the svn executable is absent: the version probe
fails and every other command would fail as well. -/
def wNoSvn : World :=
  ⟨⟨false, "", "command not found"⟩, false, ⟨false, "", ""⟩, ⟨false, "", ""⟩, ⟨false, "", ""⟩⟩

/-- A world whose svn info output is the given text, used to drive the
branch inference on chosen URLs. -/
def wInfo (s : String) : World :=
  ⟨okExec "svn, version 1.14.2", true, okExec s, ⟨false, "", ""⟩, ⟨false, "", ""⟩⟩

/-- A character list without a colon is never split. -/
lemma splitAtFirstColon_eq_none (l : List Char) (h : ':' ∉ l) :
    splitAtFirstColon l = none := by
  induction l with
  | nil => rfl
  | cons c rest ih =>
    have hc : c ≠ ':' := fun hcc => h (hcc ▸ List.mem_cons_self c rest)
    have hr : ':' ∉ rest := fun hm => h (List.mem_cons_of_mem c hm)
    simp [splitAtFirstColon, hc, ih hr]

/-- Splitting at the first colon of a list built from a colon-free
prefix, a colon, and a remainder yields exactly that prefix and
remainder. -/
lemma splitAtFirstColon_append (k v : List Char) (h : ':' ∉ k) :
    splitAtFirstColon (k ++ ':' :: v) = some (k, v) := by
  induction k with
  | nil => simp [splitAtFirstColon]
  | cons c rest ih =>
    have hc : c ≠ ':' := fun hcc => h (hcc ▸ List.mem_cons_self c rest)
    have hr : ':' ∉ rest := fun hm => h (List.mem_cons_of_mem c hm)
    simp [splitAtFirstColon, hc, ih hr]

/-- Dropping a satisfied prefix twice is the same as dropping it
once. -/
lemma dropWhile_dropWhile (p : Char → Bool) (l : List Char) :
    (l.dropWhile p).dropWhile p = l.dropWhile p := by
  induction l with
  | nil => rfl
  | cons a l ih =>
    by_cases h : p a
    · simp [List.dropWhile_cons, h, ih]
    · simp [List.dropWhile_cons, h]

/-- Trimming is unchanged by first dropping the leading whitespace. -/
lemma trimChars_dropWhile (l : List Char) :
    trimChars (l.dropWhile Char.isWhitespace) = trimChars l := by
  unfold trimChars
  rw [dropWhile_dropWhile]

/-- Membership survives dropWhile. -/
lemma mem_of_mem_dropWhile (p : Char → Bool) (l : List Char) (x : Char)
    (h : x ∈ l.dropWhile p) : x ∈ l := by
  induction l with
  | nil => simp at h
  | cons a l ih =>
    by_cases hp : p a
    · rw [List.dropWhile_cons, if_pos hp] at h
      exact List.mem_cons_of_mem a (ih h)
    · rw [List.dropWhile_cons, if_neg hp] at h
      exact h

/-- On a non-empty remainder free of line terminators, the end-anchored
tail of the line regex matches, and its capture trims to the trimmed
remainder. -/
lemma matchAfterColon_clean (r : List Char) (hr : r ≠ [])
    (hclean : ∀ c ∈ r, lineTerm c = false) :
    ∃ cap, matchAfterColon r = some cap ∧ trimChars cap = trimChars r := by
  by_cases ht : r.dropWhile Char.isWhitespace = []
  · have hall : ∀ c ∈ r, Char.isWhitespace c := by
      intro c hcm
      exact List.dropWhile_eq_nil_iff.mp ht c hcm
    cases hrev : r.reverse with
    | nil => exact absurd (by simpa using hrev) hr
    | cons c rest =>
      have hcm : c ∈ r := by
        have hm : c ∈ r.reverse := by
          rw [hrev]
          exact List.mem_cons_self c rest
        exact List.mem_reverse.mp hm
      have hcw : Char.isWhitespace c := hall c hcm
      have hct : lineTerm c = false := hclean c hcm
      refine ⟨[c], ?_, ?_⟩
      · simp [matchAfterColon, ht, hrev, hct]
      · have h1 : trimChars [c] = [] := by simp [trimChars, hcw]
        have h2 : trimChars r = [] := by simp [trimChars, ht]
        rw [h1, h2]
  · have hclean2 : (r.dropWhile Char.isWhitespace).any lineTerm = false := by
      rw [List.any_eq_false]
      intro x hx
      simp [hclean x (mem_of_mem_dropWhile Char.isWhitespace r x hx)]
    refine ⟨r.dropWhile Char.isWhitespace, ?_, trimChars_dropWhile r⟩
    simp [matchAfterColon, ht, hclean2]

/-- Replacing the seen accumulator by a membership-equivalent one does
not change first-occurrence deduplication. -/
lemma dedupFirstAux_congr (l : List String) :
    ∀ seen seen', (∀ a, a ∈ seen ↔ a ∈ seen') →
      dedupFirstAux seen l = dedupFirstAux seen' l := by
  induction l with
  | nil => intro seen seen' _; rfl
  | cons a rest ih =>
    intro seen seen' h
    by_cases ha : a ∈ seen
    · simp [dedupFirstAux, ha, (h a).mp ha, ih seen seen' h]
    · have ha' : a ∉ seen' := fun hm => ha ((h a).mpr hm)
      have hs : ∀ b, b ∈ a :: seen ↔ b ∈ a :: seen' := by
        intro b
        simp only [List.mem_cons]
        exact or_congr Iff.rfl (h b)
      simp [dedupFirstAux, ha, ha', ih (a :: seen) (a :: seen') hs]

/-- Deduplicating a list whose prefix has no repeats and is disjoint
from the seen accumulator keeps the prefix and continues on the suffix
with the prefix added to the accumulator. -/
lemma dedupFirstAux_append (pre : List String) :
    ∀ seen es, pre.Nodup → (∀ a ∈ pre, a ∉ seen) →
      dedupFirstAux seen (pre ++ es) = pre ++ dedupFirstAux (pre ++ seen) es := by
  induction pre with
  | nil => intro seen es _ _; rfl
  | cons a pre ih =>
    intro seen es hnd hdis
    have ha : a ∉ seen := hdis a (List.mem_cons_self a pre)
    have hnd' : pre.Nodup := hnd.of_cons
    have hdis' : ∀ b ∈ pre, b ∉ a :: seen := by
      intro b hb
      have hba : b ≠ a := by
        intro hba
        exact (List.nodup_cons.mp hnd).1 (hba ▸ hb)
      have hbs : b ∉ seen := hdis b (List.mem_cons_of_mem a hb)
      simp [hba, hbs]
    have heq : ∀ b, b ∈ pre ++ a :: seen ↔ b ∈ (a :: pre) ++ seen := by
      intro b
      simp only [List.mem_append, List.mem_cons]
      tauto
    calc dedupFirstAux seen ((a :: pre) ++ es)
        = a :: dedupFirstAux (a :: seen) (pre ++ es) := by
          simp [dedupFirstAux, ha]
      _ = a :: (pre ++ dedupFirstAux (pre ++ a :: seen) es) := by
          rw [ih (a :: seen) es hnd' hdis']
      _ = (a :: pre) ++ dedupFirstAux ((a :: pre) ++ seen) es := by
          rw [dedupFirstAux_congr es (pre ++ a :: seen) ((a :: pre) ++ seen) heq]
          rfl

/-- Deduplicating a repeat-free list just filters out the keys already
seen. -/
lemma dedupFirstAux_of_nodup (es : List String) :
    ∀ seen, es.Nodup → dedupFirstAux seen es = es.filter (fun a => decide (a ∉ seen)) := by
  induction es with
  | nil => intro seen _; rfl
  | cons a rest ih =>
    intro seen hnd
    have hna : a ∉ rest := (List.nodup_cons.mp hnd).1
    have hnd' : rest.Nodup := hnd.of_cons
    by_cases ha : a ∈ seen
    · simp [dedupFirstAux, ha, ih seen hnd', List.filter]
    · have hcongr : ∀ b ∈ rest, (decide (b ∉ a :: seen)) = (decide (b ∉ seen)) := by
        intro b hb
        have hba : b ≠ a := fun hba => hna (hba ▸ hb)
        simp [hba]
      calc dedupFirstAux seen (a :: rest)
          = a :: dedupFirstAux (a :: seen) rest := by simp [dedupFirstAux, ha]
        _ = a :: rest.filter (fun b => decide (b ∉ a :: seen)) := by
            rw [ih (a :: seen) hnd']
        _ = a :: rest.filter (fun b => decide (b ∉ seen)) := by
            rw [List.filter_congr hcongr]
        _ = (a :: rest).filter (fun b => decide (b ∉ seen)) := by
            simp [List.filter, ha]

/-- Folding the merge step over pairs none of which bind the key leaves
the accumulated value unchanged. -/
lemma foldl_setIf_eq_init (k : String) :
    ∀ (l : List (String × Value)) (X : Value), (∀ p ∈ l, p.1 ≠ k) →
      l.foldl (setIf k) X = X := by
  intro l
  induction l with
  | nil => intro X _; rfl
  | cons p rest ih =>
    intro X h
    have hp : p.1 ≠ k := h p (List.mem_cons_self p rest)
    have hr : ∀ q ∈ rest, q.1 ≠ k := fun q hq => h q (List.mem_cons_of_mem p hq)
    simp [List.foldl_cons, setIf, hp, ih _ hr]

/-- Folding the merge step over the log partial result always ends at
the tags binding for the tags key, whatever value was accumulated
before. -/
lemma foldl_getCommitLog_tags (w : World) (X : Value) :
    (getCommitLog w).foldl (setIf "tags") X =
      Value.vArr ((parseSvnXmlLogs (execSync w.log10Result)).map SvnLogEntry.revision) := by
  simp [getCommitLog, setIf]

/-- Successful extractor evaluation preserves the keys of the extractor
map in order. -/
lemma evalExtras_keys :
    ∀ (extra : List (String × Except Unit Value)) pairs,
      evalExtras extra = Except.ok pairs → pairs.map Prod.fst = extra.map Prod.fst := by
  intro extra
  induction extra with
  | nil =>
    intro pairs h
    cases h
    rfl
  | cons hd tl ih =>
    obtain ⟨k, ev⟩ := hd
    cases ev with
    | error e => intro pairs h; cases h
    | ok v =>
      intro pairs h
      cases he : evalExtras tl with
      | error e => rw [evalExtras, he] at h; cases h
      | ok ps =>
        rw [evalExtras, he] at h
        cases h
        simp [ih ps he]

/-- C1. The claim says a throwing extractor is isolated per entry and
never blanks the built-in fields; the code instead lets the rejection
reach the surrounding catch, so with the very same world in which the
record is otherwise produced with tool-derived revision and sha values,
adding one rejecting extractor makes collect return absent. -/
theorem C1_failing_extractor_aborts_collect :
    (getSvnInfo wOk [("extra1", Except.error ())]).info = none ∧
    (getSvnInfo wOk []).info = some (collectRecord wOk []) ∧
    objGet (collectRecord wOk []) "revision" = Value.vStr "5" ∧
    objGet (collectRecord wOk []) "sha" = Value.vStr "5" :=
  ⟨by decide, by decide, by decide, by decide⟩

/-- C2 counterexample. In a world where collect succeeds, the key
authorEmail holds undefined and the generator renders the token
undefined for it, not the JSON-null literal the claim requires. -/
theorem C2_undefined_renders_undefined_cex :
    (getSvnInfo wOk []).info = some (collectRecord wOk []) ∧
    objGet (collectRecord wOk []) "authorEmail" = Value.vUndef ∧
    gen ((getSvnInfo wOk []).info) "authorEmail" = "export const authorEmail = undefined" ∧
    gen ((getSvnInfo wOk []).info) "authorEmail" ≠ "export const authorEmail = null" :=
  ⟨by decide, by decide, by decide, by decide⟩

/-- C2 as amended. When a record was obtained, a key whose value is
undefined is still rendered, with the token undefined as its value
text; the JSON-null literal is rendered exactly in the absent-record
case. -/
theorem C2_undefined_value_rendering :
    (∀ (rec : List (String × Value)) (key : String), objGet rec key = Value.vUndef →
      gen (some rec) key = "export const " ++ key ++ " = " ++ "undefined") ∧
    (∀ key : String, gen none key = "export const " ++ key ++ " = " ++ "null") := by
  constructor
  · intro rec key h
    simp [gen, h, stringifyTemplate]
  · intro key
    rfl

/-- C2 witness. The amended rendering evaluated at the authorEmail key
of a concretely obtained record. -/
theorem C2_undefined_value_rendering_witness :
    objGet (collectRecord wOk []) "authorEmail" = Value.vUndef ∧
    gen (some (collectRecord wOk [])) "authorEmail" = "export const authorEmail = undefined" := by
  have h := C2_undefined_value_rendering.1 (collectRecord wOk []) "authorEmail" (by decide)
  exact ⟨by decide, h.trans (by decide)⟩

/-- C3. On exit code zero with non-blank stderr the current shell-out
utility returns the empty string instead of the trimmed stdout the
claim requires, while the older revision returns the stdout; both
return the empty string on a failed execution. -/
theorem C3_execSync_stderr_behavior :
    execSync ⟨true, "hello", "warning: diagnostic"⟩ = "" ∧
    Core.execSync ⟨true, "hello", "warning: diagnostic"⟩ = "hello" ∧
    execSync ⟨false, "hello", ""⟩ = "" ∧
    Core.execSync ⟨false, "hello", ""⟩ = "" :=
  ⟨by decide, by decide, by decide, by decide⟩

/-- C4 counterexample. A two-entry payload whose first entry has no
author element does not yield two entries with a defaulted author: the
multi-entry parser emits a single entry that combines the first entry's
revision with the second entry's author, date and message. -/
theorem C4_missing_author_merges_entries_cex :
    parseSvnXmlLogs xmlMissingAuthor = [⟨"7", "bob", "2024-01-02", "second"⟩] ∧
    (parseSvnXmlLogs xmlMissingAuthor).length = 1 :=
  ⟨by decide, by decide⟩

/-- C4 as amended. On a payload whose entries each carry author, date
and msg elements, the multi-entry parser returns the entries in
document order and tags lists the revisions most-recent first; missing
optional elements are tolerated with empty-string defaults only by the
single-entry parser, while the multi-entry parser merges fields across
entries instead. -/
theorem C4_log_parser_document_order :
    parseSvnXmlLogs xmlThree =
      [⟨"7", "alice", "2024-01-03", "third"⟩,
       ⟨"6", "bob", "2024-01-02", "second"⟩,
       ⟨"5", "carol", "2024-01-01", "first"⟩] ∧
    (parseSvnXmlLogs xmlThree).map SvnLogEntry.revision = ["7", "6", "5"] ∧
    objGet (getCommitLog wOk) "tags" = Value.vArr ["7", "6", "5"] ∧
    parseSvnXmlLog xmlNoAuthorOne = some ⟨"9", "", "D", "M"⟩ :=
  ⟨by decide, by decide, by decide, by decide⟩

/-- C5. For every extractor map, whose keys are unique, the key list is
the nineteen fixed keys in declared order followed by the extractor
keys not among the fixed keys, in map order, and it has no duplicate
key. -/
theorem C5_key_list_deterministic (es : List String) (h : es.Nodup) :
    keyList es = fixedKeys ++ es.filter (fun k => decide (k ∉ fixedKeys)) ∧
    (keyList es).Nodup := by
  have h1 : keyList es = fixedKeys ++ es.filter (fun k => decide (k ∉ fixedKeys)) := by
    unfold keyList dedupFirst
    rw [dedupFirstAux_append fixedKeys [] es (by decide) (by intro a _; simp)]
    rw [dedupFirstAux_of_nodup es (fixedKeys ++ []) h]
    simp
  refine ⟨h1, ?_⟩
  rw [h1]
  refine List.Nodup.append (by decide) (h.filter _) ?_
  intro a ha hfa
  rw [List.mem_filter] at hfa
  exact (of_decide_eq_true hfa.2) ha

/-- C5 witness. A two-key extractor map with one colliding key yields
the fixed keys followed by the one novel key. -/
theorem C5_key_list_deterministic_witness :
    (["url", "buildNumber"] : List String).Nodup ∧
    keyList ["url", "buildNumber"] = fixedKeys ++ ["buildNumber"] ∧
    (keyList ["url", "buildNumber"]).Nodup := by
  have h := C5_key_list_deterministic ["url", "buildNumber"] (by decide)
  exact ⟨by decide, h.1.trans (by decide), h.2⟩

/-- C6. Whenever collect yields absent, load warns the host exactly
once and its text is one null-literal assignment per key of the key
list, joined by newlines in key-list order. -/
theorem C6_absent_record_null_module (w : World) (extra : List (String × Except Unit Value))
    (h : (getSvnInfo w extra).info = none) :
    (load w extra).warnings = ["This may not be a svn repo"] ∧
    (load w extra).text =
      joinWith "\n" ((keyList (extra.map Prod.fst)).map
        (fun k => "export const " ++ k ++ " = " ++ "null")) := by
  have hg : gen none = fun k => "export const " ++ k ++ " = " ++ "null" := by
    funext k
    rfl
  constructor
  · simp [load, h]
  · simp [load, h, hg]

/-- C6 witness. With the tool absent and no extractors, load warns once
and emits the nineteen null assignments. -/
theorem C6_absent_record_null_module_witness :
    (getSvnInfo wNoSvn []).info = none ∧
    (load wNoSvn []).warnings = ["This may not be a svn repo"] ∧
    (load wNoSvn []).text = "export const url = null\nexport const repositoryRoot = null\nexport const repositoryUuid = null\nexport const revision = null\nexport const nodeKind = null\nexport const lastChangedRev = null\nexport const lastChangedDate = null\nexport const lastChangedAuthor = null\nexport const sha = null\nexport const abbreviatedSha = null\nexport const commitMessage = null\nexport const author = null\nexport const authorDate = null\nexport const authorEmail = null\nexport const branch = null\nexport const tag = null\nexport const tags = null\nexport const lastTag = null\nexport const describe = null" := by
  have h := C6_absent_record_null_module wNoSvn [] (by decide)
  exact ⟨by decide, h.1, h.2.trans (by decide)⟩

/-- C7. Branch and tag inference on the current revision: a URL ending
in /trunk or containing /trunk/ maps to trunk; /branches/ and /tags/
URLs map to the captured segment, with the fallback literal when no
segment follows; otherwise the last segment of the working copy root
path is used unless it is trunk or starts with tags; and unknown is
returned when nothing matches. -/
theorem C7_branch_or_tag_inference :
    getBranchOrTag (wInfo "URL: https://host/repo/trunk") = some "trunk" ∧
    getBranchOrTag (wInfo "URL: https://host/repo/trunk/sub") = some "trunk" ∧
    getBranchOrTag (wInfo "URL: https://host/repo/branches/feature-x") = some "feature-x" ∧
    getBranchOrTag (wInfo "URL: https://host/repo/tags/v1.0") = some "v1.0" ∧
    getBranchOrTag (wInfo "URL: https://host/branches//x") = some "unknown-branch" ∧
    getBranchOrTag
      (wInfo "URL: https://host/other/x\nWorking Copy Root Path: /home/u/mywork") =
      some "mywork" ∧
    getBranchOrTag
      (wInfo "URL: https://host/other/x\nWorking Copy Root Path: /home/u/trunk") =
      some "unknown" ∧
    getBranchOrTag (wInfo "URL: https://host/other/x") = some "unknown" :=
  ⟨by decide, by decide, by decide, by decide, by decide, by decide, by decide, by decide⟩

/-- C8 counterexample. An extractor bound to the key tags overrides the
revision array in the merged record, so a record can be returned whose
tags read is undefined. -/
theorem C8_tags_extractor_overrides_cex :
    (getSvnInfo wOk [("tags", Except.ok Value.vUndef)]).info =
      some (collectRecord wOk [("tags", Value.vUndef)]) ∧
    objGet (collectRecord wOk [("tags", Value.vUndef)]) "tags" = Value.vUndef :=
  ⟨by decide, by decide⟩

/-- C8 as amended. For every world and every extractor map that does
not itself bind the key tags, any record collect returns reads at tags
the array of parsed revisions of the ten-entry log query, most-recent
first; in particular the array is empty when the query failed and never
undefined. -/
theorem C8_tags_always_array (w : World) (extra : List (String × Except Unit Value))
    (hextra : "tags" ∉ extra.map Prod.fst) :
    ∀ rec, (getSvnInfo w extra).info = some rec →
      objGet rec "tags" =
        Value.vArr ((parseSvnXmlLogs (execSync w.log10Result)).map SvnLogEntry.revision) := by
  intro rec h
  by_cases hA : checkSvnAvailable w
  · by_cases hR : (isSvnRepo w).1
    · cases hE : evalExtras extra with
      | error e => simp [getSvnInfo, hA, hR, hE] at h
      | ok pairs =>
        simp [getSvnInfo, hA, hR, hE] at h
        have hD : ∀ p ∈ pairs, p.1 ≠ "tags" := by
          intro p hp hpe
          have hmem : p.1 ∈ pairs.map Prod.fst := List.mem_map_of_mem Prod.fst hp
          rw [evalExtras_keys extra pairs hE, hpe] at hmem
          exact hextra hmem
        rw [← h]
        unfold collectRecord objGet
        simp only [List.foldl_append]
        rw [foldl_setIf_eq_init "tags" pairs _ hD]
        exact foldl_getCommitLog_tags w _
    · simp [getSvnInfo, hA, hR] at h
  · simp [getSvnInfo, hA] at h

/-- C8 witness. In the fully successful world with no extractors the
returned record reads tags as the three parsed revisions in most-recent
first order. -/
theorem C8_tags_always_array_witness :
    (getSvnInfo wOk []).info = some (collectRecord wOk []) ∧
    objGet (collectRecord wOk []) "tags" = Value.vArr ["7", "6", "5"] := by
  have h := C8_tags_always_array wOk [] (by simp) (collectRecord wOk []) (by decide)
  exact ⟨by decide, h.trans (by decide)⟩

/-- C9. Whenever the memoized availability probe is negative, collect
warns that the tool is not installed, returns absent, and issues no
subprocess call at all, so in particular the repository check runs
none. -/
theorem C9_unavailable_short_circuits (w : World) (extra : List (String × Except Unit Value))
    (h : checkSvnAvailable w = false) :
    getSvnInfo w extra =
      ⟨none, ["SVN is not installed or not in PATH. SVN info will not be available."], []⟩ := by
  simp [getSvnInfo, h]

/-- C9 witness. The short circuit evaluated in the world with no svn
executable. -/
theorem C9_unavailable_short_circuits_witness :
    checkSvnAvailable wNoSvn = false ∧
    getSvnInfo wNoSvn [] =
      ⟨none, ["SVN is not installed or not in PATH. SVN info will not be available."], []⟩ :=
  ⟨by decide, C9_unavailable_short_circuits wNoSvn [] (by decide)⟩

/-- C10. The basic-info line parser splits at the first colon only: a
colon-free non-empty key followed by a colon and a non-empty remainder
free of line terminators yields the camel-cased trimmed key mapped to
the trimmed remainder, even when the remainder contains further colons;
a line without a colon contributes nothing, so does a line with nothing
after the colon, and so does a line whose remainder carries a line
terminator after its leading whitespace, such as the trailing carriage
return of a CRLF line, which the end-anchored capture of the source
regex cannot match. -/
theorem C10_info_line_first_colon_split :
    (∀ k v : String, ':' ∉ k.data → k ≠ "" → v ≠ "" →
      (∀ c ∈ v.data, lineTerm c = false) →
      parseInfoLine (k ++ ":" ++ v) = some (toCamelCase (jsTrim k), jsTrim v)) ∧
    (∀ line : String, ':' ∉ line.data → parseInfoLine line = none) ∧
    (∀ k : String, ':' ∉ k.data → parseInfoLine (k ++ ":") = none) ∧
    (∀ k v : String, ':' ∉ k.data →
      (v.data.dropWhile Char.isWhitespace).any lineTerm = true →
      parseInfoLine (k ++ ":" ++ v) = none) := by
  refine ⟨?_, ?_, ?_, ?_⟩
  · intro k v hc hk hv hterm
    obtain ⟨kd⟩ := k
    obtain ⟨vd⟩ := v
    have hkd : kd ≠ [] := fun hh => hk (by rw [hh])
    have hvd : vd ≠ [] := fun hh => hv (by rw [hh])
    have e : (String.mk kd ++ ":" ++ String.mk vd) = String.mk (kd ++ ':' :: vd) := by
      have e0 : (String.mk kd ++ ":" ++ String.mk vd) = String.mk ((kd ++ [':']) ++ vd) := rfl
      rw [e0, List.append_assoc]
      rfl
    rw [e]
    obtain ⟨cap, hcap, htrim⟩ := matchAfterColon_clean vd hvd hterm
    simp [parseInfoLine, splitAtFirstColon_append kd vd hc, hkd, hcap, htrim, jsTrim]
  · intro line hc
    obtain ⟨ld⟩ := line
    simp [parseInfoLine, splitAtFirstColon_eq_none ld hc]
  · intro k hc
    obtain ⟨kd⟩ := k
    have e : (String.mk kd ++ ":") = String.mk (kd ++ ':' :: []) := rfl
    rw [e]
    simp [parseInfoLine, splitAtFirstColon_append kd [] hc, matchAfterColon]
  · intro k v hc hany
    obtain ⟨kd⟩ := k
    obtain ⟨vd⟩ := v
    have e : (String.mk kd ++ ":" ++ String.mk vd) = String.mk (kd ++ ':' :: vd) := by
      have e0 : (String.mk kd ++ ":" ++ String.mk vd) = String.mk ((kd ++ [':']) ++ vd) := rfl
      rw [e0, List.append_assoc]
      rfl
    rw [e]
    have ht : vd.dropWhile Char.isWhitespace ≠ [] := by
      intro hh
      rw [hh] at hany
      simp at hany
    simp [parseInfoLine, splitAtFirstColon_append kd vd hc, matchAfterColon, ht, hany]

/-- C10 witness. The parser evaluated on a realistic labelled line, on
a URL-valued line, on a colon-free line, and on a CRLF line whose
trailing carriage return makes it contribute no entry. -/
theorem C10_info_line_first_colon_split_witness :
    parseInfoLine "Last Changed Rev: 42" = some ("lastChangedRev", "42") ∧
    parseInfoLine "URL: https://host/repo" = some ("uRL", "https://host/repo") ∧
    parseInfoLine "no colon here" = none ∧
    parseInfoLine "Last Changed Rev: 42\r" = none := by
  have h1 := C10_info_line_first_colon_split.1 "Last Changed Rev" " 42"
    (by decide) (by decide) (by decide) (by decide)
  have h2 := C10_info_line_first_colon_split.1 "URL" " https://host/repo"
    (by decide) (by decide) (by decide) (by decide)
  have h3 := C10_info_line_first_colon_split.2.1 "no colon here" (by decide)
  have h4 := C10_info_line_first_colon_split.2.2.2 "Last Changed Rev" " 42\r"
    (by decide) (by decide)
  exact ⟨h1.trans (by decide), h2.trans (by decide), h3, h4⟩
